import Mathlib

/-!
Verification of the weighted discrete sampler `RandomGen`
(src/random_gen/random_gen.py) against its specification.

Modelling choices:
* Python floats are modelled as exact rationals (`ℚ`).  `math.fsum` returns
  the correctly rounded exact sum of its arguments; the model keeps the
  exact sum and drops the final rounding, so statements that depend on that
  rounding step are outside the model.  `math.isclose` is modelled with its
  default tolerances (rel_tol = 1e-9, abs_tol = 0.0).
* A method that can raise `ValueError` is modelled as a function returning
  `Option String × RandomGen V`: the first component is `some msg` when the
  Python code raises (the message being the raised text), and the second
  component is the state of the object when the method returns or the
  exception escapes.  This makes "no partial mutation on failure" a real
  theorem rather than an artifact of the encoding.
* The randomness drawn by `random.random()` inside `next_num` is passed in
  explicitly as the argument `rand_num`.
* Python list indexing `xs[i]` (which raises `IndexError` out of range) is
  modelled by `List.get?`, so `next_num` returns `none` exactly when the
  Python code would raise.
-/

namespace WeightedSampler

/-- Model of `math.fsum`: `math.fsum` computes the exact sum of its
arguments and rounds it once to the nearest double; this model keeps the
exact rational sum and does not perform that final rounding, so it
coincides with the program exactly when the exact sum is representable as
a double (as in every concrete instance below).  Properties that hold only
up to the final rounding step are outside this model. -/
def fsum (l : List ℚ) : ℚ := l.sum

/-- Model of `math.isclose a b` with the default tolerances
`rel_tol = 1e-9`, `abs_tol = 0.0`:
`|a - b| <= max(rel_tol * max(|a|, |b|), abs_tol)`. -/
def isclose (a b : ℚ) : Bool := |a - b| ≤ (1 / 1000000000) * max |a| |b|

/-- The state of a `RandomGen` object: the three aligned lists
`_random_nums`, `_probabilities`, `_cumulative_probabilities`. -/
structure RandomGen (V : Type) where
  random_nums : List V
  probabilities : List ℚ
  cumulative_probabilities : List ℚ
deriving Repr, DecidableEq

namespace RandomGen

variable {V : Type}

/-- The cumulative-probability build of `set_probabilities`:
`[fsum(self._probabilities[:i+1]) for i in range(len(self._probabilities))]`. -/
def cumulative (ps : List ℚ) : List ℚ :=
  (List.range ps.length).map (fun i => fsum (ps.take (i + 1)))

/-- Model of `RandomGen.set_random_nums`: raises when the list is empty
(Python truthiness of a list), otherwise assigns `_random_nums` only. -/
def set_random_nums (g : RandomGen V) (random_nums : List V) :
    Option String × RandomGen V :=
  if random_nums.isEmpty then
    (some "The list random_nums must not be empty.", g)
  else
    (none, { g with random_nums := random_nums })

/-- Model of `RandomGen.set_probabilities`.  The Python parameter defaults to
`None`; `if probabilities:` is the Python truthiness test, false for both
`None` and the empty list. -/
def set_probabilities (g : RandomGen V) (probabilities : Option (List ℚ)) :
    Option String × RandomGen V :=
  match probabilities with
  | some ps =>
    if !ps.isEmpty then
      if g.random_nums.length ≠ ps.length then
        (some "The lists random_nums and probabilities must contain the same number of elements.", g)
      else if ps.any (fun p => p < 0) then
        (some "All provided probabilities must be non-negative.", g)
      else if !(isclose (fsum ps) 1) then
        (some "The sum of the probabilities must be approximately 1.", g)
      else
        (none, { g with probabilities := ps,
                        cumulative_probabilities := cumulative ps })
    else
      let ps := g.random_nums.map (fun _ => (1 : ℚ) / (g.random_nums.length : ℚ))
      (none, { g with probabilities := ps,
                      cumulative_probabilities := cumulative ps })
  | none =>
    let ps := g.random_nums.map (fun _ => (1 : ℚ) / (g.random_nums.length : ℚ))
    (none, { g with probabilities := ps,
                    cumulative_probabilities := cumulative ps })

/-- Model of `RandomGen.__init__`: `set_random_nums` then `set_probabilities`.
The fresh Python object has no fields yet; since `set_random_nums` reads no
field and `set_probabilities` reads only `_random_nums` (already set), the
placeholder empty fields are never observed.  On failure the first component
carries the raised message (the constructed object does not escape). -/
def init (random_nums : List V) (probabilities : Option (List ℚ)) :
    Option String × RandomGen V :=
  match set_random_nums (⟨[], [], []⟩ : RandomGen V) random_nums with
  | (some e, g) => (some e, g)
  | (none, g) => set_probabilities g probabilities

/-- The `while left < right` loop of `RandomGen._find_index`, with the list
of cumulative probabilities and the drawn number as parameters.  Out-of-range
reads default to `0`; they never occur on the calls the program makes. -/
def find_loop (cum : List ℚ) (rand_num : ℚ) (left right : Nat) : Nat :=
  if h : left < right then
    if cum.getD (left + (right - left) / 2) 0 < rand_num then
      find_loop cum rand_num (left + (right - left) / 2 + 1) right
    else
      find_loop cum rand_num left (left + (right - left) / 2)
  else
    left
termination_by right - left
decreasing_by
  · omega
  · omega

/-- Model of `RandomGen._find_index`: lower-bound binary search over
`_cumulative_probabilities` starting from `left = 0`,
`right = len(cumulative_probabilities) - 1`. -/
def _find_index (g : RandomGen V) (rand_num : ℚ) : Nat :=
  find_loop g.cumulative_probabilities rand_num 0
    (g.cumulative_probabilities.length - 1)

/-- Model of `RandomGen.next_num` with the uniform draw `rand_num` passed in
explicitly; `none` models an `IndexError` on `_random_nums[...]`. -/
def next_num (g : RandomGen V) (rand_num : ℚ) : Option V :=
  g.random_nums.get? (g._find_index rand_num)

end RandomGen

section Model

open RandomGen

variable {V : Type}

/-- Structural invariant of the spec's data model: the three sequences have
the same length, at least 1. -/
def Inv (g : RandomGen V) : Prop :=
  g.random_nums.length = g.probabilities.length ∧
    g.probabilities.length = g.cumulative_probabilities.length ∧
    1 ≤ g.random_nums.length

/-- States reachable by a successful construction followed by any sequence
of successful reconfiguration calls. -/
inductive Reachable : RandomGen V → Prop where
  | of_init (random_nums : List V) (probabilities : Option (List ℚ))
      (g : RandomGen V) :
      init random_nums probabilities = (none, g) → Reachable g
  | of_set_random_nums (g : RandomGen V) (random_nums : List V)
      (g' : RandomGen V) :
      Reachable g → set_random_nums g random_nums = (none, g') → Reachable g'
  | of_set_probabilities (g : RandomGen V) (probabilities : Option (List ℚ))
      (g' : RandomGen V) :
      Reachable g → set_probabilities g probabilities = (none, g') →
      Reachable g'

/-- States reachable as in `Reachable`, but where every `set_random_nums`
call supplies a list of the same length as the current one. -/
inductive LenReachable : RandomGen V → Prop where
  | of_init (random_nums : List V) (probabilities : Option (List ℚ))
      (g : RandomGen V) :
      init random_nums probabilities = (none, g) → LenReachable g
  | of_set_random_nums (g : RandomGen V) (random_nums : List V)
      (g' : RandomGen V) :
      LenReachable g → random_nums.length = g.random_nums.length →
      set_random_nums g random_nums = (none, g') → LenReachable g'
  | of_set_probabilities (g : RandomGen V) (probabilities : Option (List ℚ))
      (g' : RandomGen V) :
      LenReachable g → set_probabilities g probabilities = (none, g') →
      LenReachable g'

/-- The sampler state of the zero-probability example of the spec:
`values = [1, 2, 3]`, `probabilities = [0.75, 0, 0.25]`, with its cumulative
sequence `[0.75, 0.75, 1.0]`. -/
def sampler_75_0_25 : RandomGen ℤ :=
  ⟨[1, 2, 3], [3/4, 0, 1/4], [3/4, 3/4, 1]⟩

end Model

section Lemmas

open RandomGen

variable {V : Type}

lemma length_cumulative (ps : List ℚ) : (cumulative ps).length = ps.length := by
  simp [cumulative]

lemma getD_cumulative (ps : List ℚ) {i : ℕ} (h : i < ps.length) :
    (cumulative ps).getD i 0 = (ps.take (i + 1)).sum := by
  have h' : i < (cumulative ps).length := by rw [length_cumulative]; exact h
  rw [List.getD_eq_getElem _ _ h']
  simp [cumulative, fsum]

lemma cumulative_getD_succ (ps : List ℚ) {i : ℕ} (h : i + 1 < ps.length) :
    (cumulative ps).getD (i + 1) 0
      = (cumulative ps).getD i 0 + ps.getD (i + 1) 0 := by
  rw [getD_cumulative _ h, getD_cumulative _ (by omega), List.sum_take_succ _ _ h,
    List.getD_eq_getElem _ _ h]

/-- A list whose adjacent entries are non-decreasing is monotone under `getD`. -/
lemma getD_mono_of_step (l : List ℚ)
    (hstep : ∀ i, i + 1 < l.length → l.getD i 0 ≤ l.getD (i + 1) 0) :
    ∀ i j, i ≤ j → j < l.length → l.getD i 0 ≤ l.getD j 0 := by
  intro i j hij hj
  induction j with
  | zero =>
    have hi : i = 0 := Nat.le_zero.mp hij
    simp [hi]
  | succ k ih =>
    rcases Nat.lt_or_ge i (k + 1) with hlt | hge
    · exact le_trans (ih (Nat.lt_succ_iff.mp hlt) (Nat.lt_of_succ_lt hj)) (hstep k hj)
    · have hik : i = k + 1 := le_antisymm hij hge
      simp [hik]

/-- Adjacent-step monotonicity extracted from a `Chain'` hypothesis. -/
lemma chain_getD_step (l : List ℚ) (hs : List.Chain' (· ≤ ·) l)
    (i : ℕ) (h : i + 1 < l.length) : l.getD i 0 ≤ l.getD (i + 1) 0 := by
  rw [List.getD_eq_getElem _ _ (by omega), List.getD_eq_getElem _ _ h]
  have hg := List.chain'_iff_get.mp hs i (by omega)
  simpa [List.get_eq_getElem] using hg

/-- The loop keeps its result between `left` and `right`. -/
lemma find_loop_bounds (cum : List ℚ) (u : ℚ) :
    ∀ n left right, right - left ≤ n → left ≤ right →
      left ≤ find_loop cum u left right ∧ find_loop cum u left right ≤ right := by
  intro n
  induction n with
  | zero =>
    intro left right hn hlr
    have hnl : ¬ left < right := by omega
    rw [find_loop.eq_def]
    simp only [hnl, dite_false]
    omega
  | succ n ih =>
    intro left right hn hlr
    rw [find_loop.eq_def]
    split
    · split
      · have hb := ih (left + (right - left) / 2 + 1) right (by omega) (by omega)
        omega
      · have hb := ih left (left + (right - left) / 2) (by omega) (by omega)
        omega
    · omega

/-- Lower-bound correctness of the loop on a monotone list: starting from a
window whose left part is all `< u` and whose right end is `≥ u`, the loop
returns the least index whose entry is `≥ u`. -/
lemma find_loop_spec (cum : List ℚ) (u : ℚ)
    (hmono : ∀ i j, i ≤ j → j < cum.length → cum.getD i 0 ≤ cum.getD j 0) :
    ∀ n left right, right - left ≤ n → left ≤ right → right < cum.length →
      (∀ j, j < left → cum.getD j 0 < u) → u ≤ cum.getD right 0 →
      u ≤ cum.getD (find_loop cum u left right) 0 ∧
        ∀ j, j < find_loop cum u left right → cum.getD j 0 < u := by
  intro n
  induction n with
  | zero =>
    intro left right hn hlr hlen hleft hright
    have hlr' : left = right := by omega
    have hnl : ¬ left < right := by omega
    rw [find_loop.eq_def]
    simp only [hnl, dite_false]
    exact ⟨hlr' ▸ hright, hleft⟩
  | succ n ih =>
    intro left right hn hlr hlen hleft hright
    rw [find_loop.eq_def]
    split
    · rename_i h
      split
      · rename_i hc
        apply ih (left + (right - left) / 2 + 1) right (by omega) (by omega) hlen ?_ hright
        intro j hj
        by_cases hjl : j < left
        · exact hleft j hjl
        · exact lt_of_le_of_lt
            (hmono j (left + (right - left) / 2) (by omega) (by omega)) hc
      · rename_i hc
        exact ih left (left + (right - left) / 2) (by omega) (by omega) (by omega)
          hleft (le_of_not_lt hc)
    · rename_i h
      have hlr' : left = right := by omega
      exact ⟨hlr' ▸ hright, hleft⟩

/-- When every entry of the window is below the drawn value, the loop
walks all the way to `right`: this is the clamping behaviour of the search
for draws above every cumulative value. -/
lemma find_loop_all_lt (cum : List ℚ) (u : ℚ) :
    ∀ n left right, right - left ≤ n → left ≤ right →
      (∀ j, j ≤ right → cum.getD j 0 < u) →
      find_loop cum u left right = right := by
  intro n
  induction n with
  | zero =>
    intro left right hn hlr hall
    have hnl : ¬ left < right := by omega
    rw [find_loop.eq_def]
    simp only [hnl, dite_false]
    omega
  | succ n ih =>
    intro left right hn hlr hall
    rw [find_loop.eq_def]
    split
    · rename_i h
      rw [if_pos (hall (left + (right - left) / 2) (by omega))]
      exact ih (left + (right - left) / 2 + 1) right (by omega) (by omega) hall
    · rename_i h
      omega

/-- Specification of `_find_index` on a state with a monotone, non-empty
cumulative list, for a draw bounded by the last entry. -/
lemma _find_index_spec (g : RandomGen V) (u : ℚ)
    (hmono : ∀ i j, i ≤ j → j < g.cumulative_probabilities.length →
      g.cumulative_probabilities.getD i 0 ≤ g.cumulative_probabilities.getD j 0)
    (hne : g.cumulative_probabilities ≠ [])
    (hlast : u ≤ g.cumulative_probabilities.getD
      (g.cumulative_probabilities.length - 1) 0) :
    g._find_index u < g.cumulative_probabilities.length ∧
      u ≤ g.cumulative_probabilities.getD (g._find_index u) 0 ∧
      ∀ j, j < g._find_index u → g.cumulative_probabilities.getD j 0 < u := by
  have hpos : 0 < g.cumulative_probabilities.length :=
    List.length_pos.mpr hne
  have hb := find_loop_bounds g.cumulative_probabilities u
    (g.cumulative_probabilities.length - 1) 0
    (g.cumulative_probabilities.length - 1) (by omega) (by omega)
  have hs := find_loop_spec g.cumulative_probabilities u hmono
    (g.cumulative_probabilities.length - 1) 0
    (g.cumulative_probabilities.length - 1) (by omega) (by omega) (by omega)
    (by intro j hj; omega) hlast
  exact ⟨by unfold RandomGen._find_index; omega,
    by unfold RandomGen._find_index at *; exact hs.1,
    by unfold RandomGen._find_index at *; exact hs.2⟩

lemma cumulative_getD_zero (ps : List ℚ) (h : ps ≠ []) :
    (cumulative ps).getD 0 0 = ps.getD 0 0 := by
  obtain ⟨p, tl, rfl⟩ := List.exists_cons_of_ne_nil h
  rw [getD_cumulative _ (by simp)]
  simp

/-- A successful `set_random_nums` call replaces only `_random_nums`, with a
non-empty list. -/
lemma set_random_nums_ok {g g' : RandomGen V} {nums : List V}
    (h : set_random_nums g nums = (none, g')) :
    nums ≠ [] ∧ g' = { g with random_nums := nums } := by
  unfold set_random_nums at h
  split at h
  · simp at h
  · rename_i hne
    simp only [Prod.mk.injEq] at h
    exact ⟨by simpa [List.isEmpty_iff] using hne, h.2.symm⟩

/-- A successful `set_probabilities` call leaves `_random_nums` unchanged,
stores a probability list of the length of `_random_nums`, and rebuilds
`_cumulative_probabilities` from the stored probabilities. -/
lemma set_probabilities_ok {g g' : RandomGen V} {ps? : Option (List ℚ)}
    (h : set_probabilities g ps? = (none, g')) :
    g'.random_nums = g.random_nums ∧
    g'.probabilities.length = g.random_nums.length ∧
    g'.cumulative_probabilities = cumulative g'.probabilities := by
  rcases ps? with _ | ps
  all_goals simp only [set_probabilities] at h
  · have h' : (⟨g.random_nums,
        List.map (fun _ => (1 : ℚ) / (g.random_nums.length : ℚ)) g.random_nums,
        cumulative (List.map (fun _ => (1 : ℚ) / (g.random_nums.length : ℚ))
          g.random_nums)⟩ : RandomGen V) = g' := congrArg Prod.snd h
    subst h'
    simp
  · by_cases h1 : (!ps.isEmpty) = true
    · rw [if_pos h1] at h
      by_cases h2 : g.random_nums.length ≠ ps.length
      · rw [if_pos h2] at h
        exact absurd h (by simp)
      · rw [if_neg h2] at h
        by_cases h3 : (ps.any fun p => p < 0) = true
        · rw [if_pos h3] at h
          exact absurd h (by simp)
        · rw [if_neg h3] at h
          by_cases h4 : (!isclose (fsum ps) 1) = true
          · rw [if_pos h4] at h
            exact absurd h (by simp)
          · rw [if_neg h4] at h
            have h' : (⟨g.random_nums, ps, cumulative ps⟩ : RandomGen V) = g' :=
              congrArg Prod.snd h
            subst h'
            exact ⟨rfl, by show ps.length = g.random_nums.length; omega, rfl⟩
    · rw [if_neg h1] at h
      have h' : (⟨g.random_nums,
          List.map (fun _ => (1 : ℚ) / (g.random_nums.length : ℚ)) g.random_nums,
          cumulative (List.map (fun _ => (1 : ℚ) / (g.random_nums.length : ℚ))
            g.random_nums)⟩ : RandomGen V) = g' := congrArg Prod.snd h
      subst h'
      simp

/-- A successful construction has the supplied values, aligned probability
lengths, and the prefix-sum cumulative sequence. -/
lemma init_ok {nums : List V} {ps? : Option (List ℚ)} {g' : RandomGen V}
    (h : init nums ps? = (none, g')) :
    nums ≠ [] ∧ g'.random_nums = nums ∧
    g'.probabilities.length = nums.length ∧
    g'.cumulative_probabilities = cumulative g'.probabilities := by
  unfold init at h
  split at h
  · simp at h
  · rename_i g heq
    obtain ⟨hne, hg⟩ := set_random_nums_ok heq
    have hsp := set_probabilities_ok h
    subst hg
    exact ⟨hne, by simpa using hsp.1, by simpa using hsp.2.1, hsp.2.2⟩

/-- Along length-preserving reconfiguration sequences the structural
invariant holds. -/
lemma inv_of_lenReachable {g : RandomGen V} (h : LenReachable g) : Inv g := by
  induction h with
  | of_init nums ps? g h =>
    obtain ⟨hne, h1, h2, h3⟩ := init_ok h
    have hpos : 0 < nums.length := List.length_pos.mpr hne
    refine ⟨by rw [h1, h2], ?_, by rw [h1]; exact hpos⟩
    rw [h3, length_cumulative]
  | of_set_random_nums g nums g' hr hlen hset ih =>
    obtain ⟨hne, hg'⟩ := set_random_nums_ok hset
    subst hg'
    obtain ⟨i1, i2, i3⟩ := ih
    exact ⟨by simpa [hlen] using i1, i2, by simpa [hlen] using i3⟩
  | of_set_probabilities g ps? g' hr hset ih =>
    obtain ⟨h1, h2, h3⟩ := set_probabilities_ok hset
    obtain ⟨i1, i2, i3⟩ := ih
    refine ⟨by rw [h1, h2], ?_, by rw [h1]; exact i3⟩
    rw [h3, length_cumulative]

/-- Construction with omitted probabilities assigns the uniform distribution
over the supplied values. -/
lemma init_none_uniform (nums : List V) (hne : nums ≠ []) :
    init nums none =
      (none, ⟨nums, nums.map (fun _ => (1 : ℚ) / (nums.length : ℚ)),
        cumulative (nums.map (fun _ => (1 : ℚ) / (nums.length : ℚ)))⟩) := by
  unfold init set_random_nums
  simp [List.isEmpty_eq_false.mpr hne, set_probabilities]

/-- Characterization of the error cases of `set_probabilities`: it raises
exactly when a non-empty list is provided that fails one of the three
validations. -/
lemma set_probabilities_error_iff (g : RandomGen V) (ps? : Option (List ℚ)) :
    (set_probabilities g ps?).1.isSome = true ↔
      ∃ ps, ps? = some ps ∧ ps ≠ [] ∧
        (g.random_nums.length ≠ ps.length ∨ (∃ p ∈ ps, p < 0) ∨
          isclose (fsum ps) 1 = false) := by
  rcases ps? with _ | ps
  · simp [set_probabilities]
  · by_cases hps : ps.isEmpty
    · have h0 : ps = [] := List.isEmpty_iff.mp hps
      subst h0
      simp [set_probabilities]
    · have hpne : ps ≠ [] := by simpa [List.isEmpty_iff] using hps
      simp only [set_probabilities,
        if_pos (show (!ps.isEmpty) = true by simp [hpne])]
      by_cases h2 : g.random_nums.length ≠ ps.length
      · rw [if_pos h2]
        simp [hpne, h2]
      · rw [if_neg h2]
        by_cases h3 : (ps.any fun p => p < 0) = true
        · rw [if_pos h3]
          simp only [List.any_eq_true, decide_eq_true_eq] at h3
          simp only [Option.isSome_some, Option.some.injEq, true_iff]
          exact ⟨ps, rfl, hpne, Or.inr (Or.inl h3)⟩
        · rw [if_neg h3]
          by_cases h4 : (!isclose (fsum ps) 1) = true
          · rw [if_pos h4]
            simp only [Bool.not_eq_true'] at h4
            simp only [Option.isSome_some, Option.some.injEq, true_iff]
            exact ⟨ps, rfl, hpne, Or.inr (Or.inr h4)⟩
          · rw [if_neg h4]
            simp only [Bool.not_eq_true', Bool.not_eq_false] at h4
            simp only [List.any_eq_true, decide_eq_true_eq] at h3
            push_neg at h3
            simp only [Option.isSome_none, Bool.false_eq_true, false_iff,
              not_exists]
            rintro ps' ⟨heq, -, hbad⟩
            injection heq with heq2
            subst heq2
            rcases hbad with hb | hb | hb
            · exact h2 hb
            · obtain ⟨p, hp, hplt⟩ := hb
              exact absurd hplt (not_lt.mpr (h3 p hp))
            · rw [h4] at hb
              cases hb

end Lemmas

section Claims

open RandomGen

variable {V : Type}

/-- C1: for every sampler state whose cumulative-probability sequence is
non-decreasing (and aligned with the values), and for every drawn uniform
value `u` in `[0, 1)` with `u` at most the last cumulative value, `next_num`
returns `values[i]` where `i` is the smallest index such that
`cumulativeProbabilities[i] ≥ u`, as computed by the lower-bound binary
search `_find_index`. -/
theorem C1_next_num_returns_leftmost_index (g : RandomGen V) (u : ℚ)
    (hchain : List.Chain' (· ≤ ·) g.cumulative_probabilities)
    (hne : g.cumulative_probabilities ≠ [])
    (hlen : g.random_nums.length = g.cumulative_probabilities.length)
    (_h0 : 0 ≤ u) (_h1 : u < 1)
    (hlast : u ≤ g.cumulative_probabilities.getD
      (g.cumulative_probabilities.length - 1) 0) :
    g._find_index u < g.cumulative_probabilities.length ∧
    u ≤ g.cumulative_probabilities.getD (g._find_index u) 0 ∧
    (∀ j, j < g._find_index u → g.cumulative_probabilities.getD j 0 < u) ∧
    g.next_num u = g.random_nums.get? (g._find_index u) ∧
    (g.next_num u).isSome = true := by
  have hmono := getD_mono_of_step _ (chain_getD_step _ hchain)
  have hs := _find_index_spec g u hmono hne hlast
  refine ⟨hs.1, hs.2.1, hs.2.2, rfl, ?_⟩
  have hi : g._find_index u < g.random_nums.length := by rw [hlen]; exact hs.1
  rw [RandomGen.next_num, List.get?_eq_getElem?, List.getElem?_eq_getElem hi]
  rfl

/-- Witness for C1 at the state `values=[1,2,3]`,
`probabilities=[0.75,0,0.25]` and the draw `u = 0.8`. -/
theorem C1_witness :
    List.Chain' (· ≤ ·) sampler_75_0_25.cumulative_probabilities ∧
    sampler_75_0_25.cumulative_probabilities ≠ [] ∧
    (0 : ℚ) ≤ 4/5 ∧ (4/5 : ℚ) < 1 ∧
    (4/5 : ℚ) ≤ sampler_75_0_25.cumulative_probabilities.getD
      (sampler_75_0_25.cumulative_probabilities.length - 1) 0 ∧
    (sampler_75_0_25.next_num (4/5)).isSome = true :=
  ⟨by norm_num [sampler_75_0_25], by simp [sampler_75_0_25], by norm_num,
   by norm_num, by norm_num [sampler_75_0_25],
   (C1_next_num_returns_leftmost_index sampler_75_0_25 (4/5)
     (by norm_num [sampler_75_0_25]) (by simp [sampler_75_0_25])
     (by norm_num [sampler_75_0_25]) (by norm_num) (by norm_num)
     (by norm_num [sampler_75_0_25])).2.2.2.2⟩

/-- C4: for every state with a non-empty cumulative sequence and every
input `rand_num` (including one greater than every cumulative value), the
binary-search loop of `_find_index` terminates — it is a total function of
this development, defined by a decreasing measure — and returns an index
within `[0, len(cumulativeProbabilities) - 1]`. -/
theorem C4_find_index_terminates_in_range (g : RandomGen V) (rand_num : ℚ)
    (hne : g.cumulative_probabilities ≠ []) :
    g._find_index rand_num ≤ g.cumulative_probabilities.length - 1 ∧
    g._find_index rand_num < g.cumulative_probabilities.length := by
  have hpos : 0 < g.cumulative_probabilities.length := List.length_pos.mpr hne
  have hb := find_loop_bounds g.cumulative_probabilities rand_num
    (g.cumulative_probabilities.length - 1) 0
    (g.cumulative_probabilities.length - 1) (by omega) (by omega)
  unfold RandomGen._find_index
  omega

/-- Witness for C4 at the example state with the out-of-range draw `3.5`. -/
theorem C4_witness :
    sampler_75_0_25.cumulative_probabilities ≠ [] ∧
    sampler_75_0_25._find_index (7/2) <
      sampler_75_0_25.cumulative_probabilities.length :=
  ⟨by simp [sampler_75_0_25],
   (C4_find_index_terminates_in_range sampler_75_0_25 (7/2)
     (by simp [sampler_75_0_25])).2⟩

/-- C5: after every successful construction or `set_probabilities` call,
the cumulative sequence has the same length as the probabilities and its
entry at `i` is the exact sum of `probabilities[0..=i]`; in particular for
`probabilities = [0.125, 0.375, 0.25, 0.0625, 0.1875]` the cumulative
sequence is exactly `[0.125, 0.5, 0.75, 0.8125, 1.0]`. -/
theorem C5_cumulative_prefix_sums :
    (∀ (g g' : RandomGen V) (ps? : Option (List ℚ)),
      set_probabilities g ps? = (none, g') →
      g'.cumulative_probabilities.length = g'.probabilities.length ∧
      ∀ i, i < g'.probabilities.length →
        g'.cumulative_probabilities.getD i 0
          = (g'.probabilities.take (i + 1)).sum) ∧
    (∀ (nums : List V) (ps? : Option (List ℚ)) (g' : RandomGen V),
      init nums ps? = (none, g') →
      g'.cumulative_probabilities.length = g'.probabilities.length ∧
      ∀ i, i < g'.probabilities.length →
        g'.cumulative_probabilities.getD i 0
          = (g'.probabilities.take (i + 1)).sum) ∧
    (RandomGen.init ([1, 2, 3, 4, 5] : List ℤ)
        (some [0.125, 0.375, 0.25, 0.0625, 0.1875])).2.cumulative_probabilities
      = [0.125, 0.5, 0.75, 0.8125, 1.0] := by
  refine ⟨?_, ?_, ?_⟩
  · intro g g' ps? h
    obtain ⟨-, -, h3⟩ := set_probabilities_ok h
    refine ⟨by rw [h3, length_cumulative], ?_⟩
    intro i hi
    rw [h3, getD_cumulative _ hi]
  · intro nums ps? g' h
    obtain ⟨-, -, -, h4⟩ := init_ok h
    refine ⟨by rw [h4, length_cumulative], ?_⟩
    intro i hi
    rw [h4, getD_cumulative _ hi]
  · norm_num [RandomGen.init, RandomGen.set_random_nums,
      RandomGen.set_probabilities, RandomGen.cumulative, fsum, isclose,
      List.range_succ]

/-- Witness for C5: a concrete successful `set_probabilities` call and the
prefix-sum property at index 1 of the state it produces. -/
theorem C5_witness :
    RandomGen.set_probabilities sampler_75_0_25 (some [1/2, 1/4, 1/4])
      = (none, (⟨[1, 2, 3], [1/2, 1/4, 1/4], [1/2, 3/4, 1]⟩ : RandomGen ℤ)) ∧
    (⟨[1, 2, 3], [1/2, 1/4, 1/4], [1/2, 3/4, 1]⟩ :
        RandomGen ℤ).cumulative_probabilities.getD 1 0
      = ((⟨[1, 2, 3], [1/2, 1/4, 1/4], [1/2, 3/4, 1]⟩ :
        RandomGen ℤ).probabilities.take (1 + 1)).sum := by
  have h : RandomGen.set_probabilities sampler_75_0_25 (some [1/2, 1/4, 1/4])
      = (none, (⟨[1, 2, 3], [1/2, 1/4, 1/4], [1/2, 3/4, 1]⟩ : RandomGen ℤ)) := by
    norm_num [sampler_75_0_25, RandomGen.set_probabilities, RandomGen.cumulative,
      fsum, isclose, List.range_succ]
  exact ⟨h, ((C5_cumulative_prefix_sums (V := ℤ)).1 sampler_75_0_25 _ _ h).2 1
    (by decide)⟩

/-- C9: reconfiguration is atomic — whenever `set_random_nums` or
`set_probabilities` raises `ValueError`, the sampler state is exactly what
it was before the call (all validation happens before any field
assignment). -/
theorem C9_failed_reconfiguration_preserves_state (g : RandomGen V)
    (nums : List V) (ps? : Option (List ℚ)) :
    ((set_random_nums g nums).1.isSome = true →
      (set_random_nums g nums).2 = g) ∧
    ((set_probabilities g ps?).1.isSome = true →
      (set_probabilities g ps?).2 = g) := by
  constructor
  · intro herr
    simp only [set_random_nums] at herr ⊢
    by_cases hE : nums.isEmpty
    · rw [if_pos hE]
    · rw [if_neg hE] at herr
      simp at herr
  · intro herr
    rcases ps? with _ | ps
    · simp only [set_probabilities] at herr
      simp at herr
    · simp only [set_probabilities] at herr ⊢
      by_cases h1 : (!ps.isEmpty) = true
      · rw [if_pos h1] at herr ⊢
        by_cases h2 : g.random_nums.length ≠ ps.length
        · rw [if_pos h2]
        · rw [if_neg h2] at herr ⊢
          by_cases h3 : (ps.any fun p => p < 0) = true
          · rw [if_pos h3]
          · rw [if_neg h3] at herr ⊢
            by_cases h4 : (!isclose (fsum ps) 1) = true
            · rw [if_pos h4]
            · rw [if_neg h4] at herr
              simp at herr
      · rw [if_neg h1] at herr
        simp at herr

/-- Witness for C9: a failing `set_random_nums` (empty list) and a failing
`set_probabilities` (length mismatch) both leave the example state
untouched. -/
theorem C9_witness :
    (RandomGen.set_random_nums sampler_75_0_25 ([] : List ℤ)).1.isSome = true ∧
    (RandomGen.set_random_nums sampler_75_0_25 ([] : List ℤ)).2
      = sampler_75_0_25 ∧
    (RandomGen.set_probabilities sampler_75_0_25 (some [1/2])).1.isSome = true ∧
    (RandomGen.set_probabilities sampler_75_0_25 (some [1/2])).2
      = sampler_75_0_25 := by
  refine ⟨by simp [RandomGen.set_random_nums], ?_,
    by simp [RandomGen.set_probabilities, sampler_75_0_25], ?_⟩
  · exact (C9_failed_reconfiguration_preserves_state sampler_75_0_25
      ([] : List ℤ) (some [1/2])).1 (by simp [RandomGen.set_random_nums])
  · exact (C9_failed_reconfiguration_preserves_state sampler_75_0_25
      ([] : List ℤ) (some [1/2])).2
      (by simp [RandomGen.set_probabilities, sampler_75_0_25])

/-- C10: for a non-empty values list, passing an empty probabilities list
to construction or `set_probabilities` behaves exactly like omitting the
probabilities — no error is raised and the uniform distribution
`1 / len(values)` is assigned — even though the empty list's length differs
from `len(values)`. -/
theorem C10_empty_probabilities_list_is_omitted (nums : List V)
    (g : RandomGen V) (hne : nums ≠ []) :
    set_probabilities g (some []) = set_probabilities g none ∧
    init nums (some []) = init nums none ∧
    (init nums (some [])).1 = none ∧
    (init nums (some [])).2.probabilities
      = nums.map (fun _ => (1 : ℚ) / (nums.length : ℚ)) := by
  have hinit : init nums (some []) = init nums none := by
    unfold RandomGen.init
    rcases hsr : RandomGen.set_random_nums (⟨[], [], []⟩ : RandomGen V) nums
      with ⟨e, g1⟩
    rcases e with _ | msg <;> rfl
  refine ⟨rfl, hinit, ?_, ?_⟩
  · rw [hinit, init_none_uniform nums hne]
  · rw [hinit, init_none_uniform nums hne]

/-- Witness for C10 at `values = [1, 2]`. -/
theorem C10_witness :
    (([1, 2] : List ℤ) ≠ []) ∧
    RandomGen.init ([1, 2] : List ℤ) (some [])
      = RandomGen.init ([1, 2] : List ℤ) none ∧
    (RandomGen.init ([1, 2] : List ℤ) (some [])).2.probabilities
      = ([1, 2] : List ℤ).map (fun _ => (1 : ℚ) / ((([1, 2] : List ℤ).length : ℕ) : ℚ)) := by
  have h := C10_empty_probabilities_list_is_omitted ([1, 2] : List ℤ)
    (⟨[], [], []⟩ : RandomGen ℤ) (by simp)
  exact ⟨by simp, h.2.1, h.2.2.2⟩

/-- C2 (counterexample to the claim as stated): in the validly constructed
state `values=[1,2], probabilities=[0, 1]` the draw `u = 0` lies in `[0,1)`
yet the leftmost-index search returns index 0, whose probability is zero,
and `next_num` returns the zero-weight value `1`. -/
theorem C2_counterexample :
    (RandomGen.init ([1, 2] : List ℤ) (some [0, 1])).1 = none ∧
    (RandomGen.init ([1, 2] : List ℤ) (some [0, 1])).2
      = (⟨[1, 2], [0, 1], [0, 1]⟩ : RandomGen ℤ) ∧
    (0 : ℚ) ≤ 0 ∧ (0 : ℚ) < 1 ∧
    (⟨[1, 2], [0, 1], [0, 1]⟩ : RandomGen ℤ)._find_index 0 = 0 ∧
    (⟨[1, 2], [0, 1], [0, 1]⟩ : RandomGen ℤ).probabilities.getD 0 0 = 0 ∧
    (⟨[1, 2], [0, 1], [0, 1]⟩ : RandomGen ℤ).next_num 0 = some 1 := by
  have hinit : RandomGen.init ([1, 2] : List ℤ) (some [0, 1])
      = (none, ⟨[1, 2], [0, 1], [0, 1]⟩) := by
    norm_num [RandomGen.init, RandomGen.set_random_nums,
      RandomGen.set_probabilities, RandomGen.cumulative, fsum, isclose,
      List.range_succ]
  have hfind : (⟨[1, 2], [0, 1], [0, 1]⟩ : RandomGen ℤ)._find_index 0 = 0 := by
    rw [RandomGen._find_index]
    norm_num
    rw [find_loop.eq_def]
    norm_num
    rw [find_loop.eq_def]
    norm_num
  refine ⟨by rw [hinit], by rw [hinit], le_refl 0, by norm_num, hfind, by norm_num, ?_⟩
  rw [RandomGen.next_num, hfind]
  rfl

/-- C2 (amended): in a state with non-negative probabilities whose
cumulative sequence is their prefix-sum sequence, for every draw
`u ∈ [0, 1)`: if the leftmost-index search returns an index of zero
probability, then either it is index 0 and `u = 0` (the draw `0.0` is
legal), or it is the last index and `u` exceeds the last cumulative value
(possible because `isclose` accepts probability sums slightly below 1 and
the search clamps to the last index; realised by
`probabilities = [1 - 1e-10, 0]` with `u = 1 - 1e-11`, shown below).  In
particular for `values=[1,2,3]`, `probabilities=[0.75, 0, 0.25]` (a state
produced by construction) `next_num` never returns the value `2`. -/
theorem C2_amended_zero_probability_unreachable :
    (∀ (g : RandomGen V) (u : ℚ),
      g.cumulative_probabilities = cumulative g.probabilities →
      (∀ p ∈ g.probabilities, 0 ≤ p) →
      g.probabilities ≠ [] →
      0 ≤ u → u < 1 →
      g.probabilities.getD (g._find_index u) 0 = 0 →
      (g._find_index u = 0 ∧ u = 0) ∨
        (g._find_index u = g.probabilities.length - 1 ∧
          g.cumulative_probabilities.getD
            (g.cumulative_probabilities.length - 1) 0 < u)) ∧
    RandomGen.init ([1, 2, 3] : List ℤ) (some [3/4, 0, 1/4])
      = (none, sampler_75_0_25) ∧
    (∀ u : ℚ, 0 ≤ u → u < 1 → sampler_75_0_25.next_num u ≠ some 2) ∧
    RandomGen.init ([1, 2] : List ℤ) (some [1 - 1/10000000000, 0])
      = (none, ⟨[1, 2], [1 - 1/10000000000, 0],
          [1 - 1/10000000000, 1 - 1/10000000000]⟩) ∧
    (⟨[1, 2], [1 - 1/10000000000, 0],
        [1 - 1/10000000000, 1 - 1/10000000000]⟩ : RandomGen ℤ)._find_index
      (1 - 1/100000000000) = 1 := by
  have general : ∀ {W : Type} (g : RandomGen W) (u : ℚ),
      g.cumulative_probabilities = cumulative g.probabilities →
      (∀ p ∈ g.probabilities, 0 ≤ p) →
      g.probabilities ≠ [] →
      0 ≤ u →
      g.probabilities.getD (g._find_index u) 0 = 0 →
      (g._find_index u = 0 ∧ u = 0) ∨
        (g._find_index u = g.probabilities.length - 1 ∧
          g.cumulative_probabilities.getD
            (g.cumulative_probabilities.length - 1) 0 < u) := by
    intro W g u hcum hnn hne h0 hp
    have hlcum : g.cumulative_probabilities.length = g.probabilities.length := by
      rw [hcum, length_cumulative]
    have hplen : 0 < g.probabilities.length := List.length_pos.mpr hne
    have hstep : ∀ i, i + 1 < g.cumulative_probabilities.length →
        g.cumulative_probabilities.getD i 0
          ≤ g.cumulative_probabilities.getD (i + 1) 0 := by
      intro i hi
      have hi' : i + 1 < g.probabilities.length := by omega
      have hmem : g.probabilities.getD (i + 1) 0 ∈ g.probabilities := by
        rw [List.getD_eq_getElem _ _ hi']
        exact List.getElem_mem hi'
      have hnni := hnn _ hmem
      rw [hcum, cumulative_getD_succ _ hi']
      linarith
    have hmono := getD_mono_of_step _ hstep
    have hcumne : g.cumulative_probabilities ≠ [] := by
      rw [← List.length_pos, hlcum]
      exact hplen
    by_cases hlast : u ≤ g.cumulative_probabilities.getD
        (g.cumulative_probabilities.length - 1) 0
    · left
      have hs := _find_index_spec g u hmono hcumne hlast
      cases hI : g._find_index u with
      | zero =>
        refine ⟨rfl, ?_⟩
        rw [hI] at hp
        have h00 : g.cumulative_probabilities.getD 0 0
            = g.probabilities.getD 0 0 := by
          rw [hcum, cumulative_getD_zero _ hne]
        have hle := hs.2.1
        rw [hI, h00, hp] at hle
        linarith
      | succ j =>
        exfalso
        rw [hI] at hp
        have hj1 : j + 1 < g.cumulative_probabilities.length := by
          have hj := hs.1
          rw [hI] at hj
          exact hj
        have hlt := hs.2.2 j (by rw [hI]; omega)
        have hle := hs.2.1
        rw [hI] at hle
        have hsucc := cumulative_getD_succ g.probabilities
          (show j + 1 < g.probabilities.length by omega)
        rw [← hcum] at hsucc
        rw [hp, add_zero] at hsucc
        rw [hsucc] at hle
        linarith
    · right
      push_neg at hlast
      have hall : ∀ j, j ≤ g.cumulative_probabilities.length - 1 →
          g.cumulative_probabilities.getD j 0 < u := by
        intro j hj
        exact lt_of_le_of_lt
          (hmono j (g.cumulative_probabilities.length - 1) hj (by omega)) hlast
      have hfl := find_loop_all_lt g.cumulative_probabilities u
        (g.cumulative_probabilities.length - 1) 0
        (g.cumulative_probabilities.length - 1) (by omega) (by omega) hall
      have hidx : g._find_index u = g.cumulative_probabilities.length - 1 := by
        unfold RandomGen._find_index
        exact hfl
      exact ⟨by rw [hidx, hlcum], hlast⟩
  refine ⟨fun g u hcum hnn hne h0 _ hp => general g u hcum hnn hne h0 hp,
    ?_, ?_, ?_, ?_⟩
  · norm_num [RandomGen.init, RandomGen.set_random_nums,
      RandomGen.set_probabilities, RandomGen.cumulative, fsum, isclose,
      List.range_succ, sampler_75_0_25]
  · intro u h0 h1 hcontra
    have hi2 : sampler_75_0_25._find_index u = 1 := by
      rw [RandomGen.next_num] at hcontra
      rcases hI : sampler_75_0_25._find_index u with _ | j
      · rw [hI] at hcontra
        simp [sampler_75_0_25] at hcontra
      · rcases j with _ | j'
        · rfl
        · rcases j' with _ | j''
          · rw [hI] at hcontra
            simp [sampler_75_0_25] at hcontra
          · rw [hI] at hcontra
            simp [sampler_75_0_25] at hcontra
    have hp : sampler_75_0_25.probabilities.getD
        (sampler_75_0_25._find_index u) 0 = 0 := by
      rw [hi2]
      norm_num [sampler_75_0_25]
    have hgen := general sampler_75_0_25 u
      (by norm_num [sampler_75_0_25, RandomGen.cumulative, fsum, List.range_succ])
      (by norm_num [sampler_75_0_25]) (by simp [sampler_75_0_25]) h0 hp
    rw [hi2] at hgen
    rcases hgen with ⟨h10, -⟩ | ⟨h12, -⟩
    · exact absurd h10 (by decide)
    · norm_num [sampler_75_0_25] at h12
  · norm_num [RandomGen.init, RandomGen.set_random_nums,
      RandomGen.set_probabilities, RandomGen.cumulative, fsum, isclose,
      List.range_succ, abs_eq_max_neg, max_def]
  · rw [RandomGen._find_index]
    norm_num
    rw [find_loop.eq_def]
    norm_num
    rw [find_loop.eq_def]
    norm_num

/-- Witness for C2 (amended): the general statement applied at the state
`values=[1,2]`, `probabilities=[0,1]` with the draw `u = 0`, where the
zero-weight index 0 is returned and the first exception applies; plus the
particular statement at `u = 0.5`. -/
theorem C2_witness :
    (((⟨[1, 2], [0, 1], [0, 1]⟩ : RandomGen ℤ)._find_index 0 = 0 ∧
        (0 : ℚ) = 0) ∨
      ((⟨[1, 2], [0, 1], [0, 1]⟩ : RandomGen ℤ)._find_index 0
          = (⟨[1, 2], [0, 1], [0, 1]⟩ : RandomGen ℤ).probabilities.length - 1 ∧
        (⟨[1, 2], [0, 1], [0, 1]⟩ :
            RandomGen ℤ).cumulative_probabilities.getD
          ((⟨[1, 2], [0, 1], [0, 1]⟩ :
            RandomGen ℤ).cumulative_probabilities.length - 1) 0 < 0)) ∧
    sampler_75_0_25.next_num (1/2) ≠ some 2 := by
  have hfind : (⟨[1, 2], [0, 1], [0, 1]⟩ : RandomGen ℤ)._find_index 0 = 0 := by
    rw [RandomGen._find_index]
    norm_num
    rw [find_loop.eq_def]
    norm_num
    rw [find_loop.eq_def]
    norm_num
  exact ⟨(C2_amended_zero_probability_unreachable (V := ℤ)).1
      (⟨[1, 2], [0, 1], [0, 1]⟩ : RandomGen ℤ) 0
      (by norm_num [RandomGen.cumulative, fsum, List.range_succ])
      (by norm_num) (by simp) (le_refl 0) (by norm_num)
      (by rw [hfind]; norm_num),
    (C2_amended_zero_probability_unreachable (V := ℤ)).2.2.1 (1/2)
      (by norm_num) (by norm_num)⟩

/-- C3 (counterexample to the claim as stated): constructing `values=[1]`
with the explicitly provided probabilities list `[]` violates the length
precondition (0 ≠ 1) yet raises no error, so "raises iff a precondition is
violated" fails at this input. -/
theorem C3_counterexample :
    ¬ ((RandomGen.init ([1] : List ℤ) (some ([] : List ℚ))).1.isSome = true ↔
      (([1] : List ℤ) = [] ∨
        ∃ ps : List ℚ, some ([] : List ℚ) = some ps ∧
          (([1] : List ℤ).length ≠ ps.length ∨ (∃ p ∈ ps, p < 0) ∨
            isclose (fsum ps) 1 = false))) := by
  intro h
  have hL : (RandomGen.init ([1] : List ℤ) (some ([] : List ℚ))).1.isSome
      = false := by
    norm_num [RandomGen.init, RandomGen.set_random_nums,
      RandomGen.set_probabilities, RandomGen.cumulative, fsum, isclose,
      List.range_succ]
  have hR := h.mpr (Or.inr ⟨[], rfl, Or.inl (by decide)⟩)
  rw [hR] at hL
  cases hL

/-- C3 (amended): construction (and the setters it is built from) raises
`InvalidInput` if and only if `values` is empty, or a NON-EMPTY
probabilities list is provided whose length differs from `len(values)`, or
which contains a negative entry, or whose sum is not within the `isclose`
tolerance of 1; providing an empty list is treated as omitting the
argument and never raises.  Every input violating none of these
constructs successfully. -/
theorem C3_amended_raises_iff_precondition_violated (nums : List V)
    (ps? : Option (List ℚ)) :
    (init nums ps?).1.isSome = true ↔
      (nums = [] ∨
        ∃ ps, ps? = some ps ∧ ps ≠ [] ∧
          (nums.length ≠ ps.length ∨ (∃ p ∈ ps, p < 0) ∨
            isclose (fsum ps) 1 = false)) := by
  by_cases hE : nums.isEmpty
  · have hnil : nums = [] := List.isEmpty_iff.mp hE
    subst hnil
    simp [RandomGen.init, RandomGen.set_random_nums]
  · have hne : nums ≠ [] := by simpa [List.isEmpty_iff] using hE
    have hsr : RandomGen.set_random_nums (⟨[], [], []⟩ : RandomGen V) nums
        = (none, ⟨nums, [], []⟩) := by
      rw [RandomGen.set_random_nums, if_neg hE]
    have hred : init nums ps? = set_probabilities ⟨nums, [], []⟩ ps? := by
      unfold RandomGen.init
      rw [hsr]
    rw [hred, set_probabilities_error_iff]
    simp [hne]

/-- C7 (counterexample to the claim as stated): from the state constructed
by `init [1, 2] none`, the successful reconfiguration
`set_random_nums [1, 2, 3]` produces a reachable state whose values list
has length 3 while both probability lists still have length 2, violating
the invariant. -/
theorem C7_counterexample :
    Reachable (⟨[1, 2, 3], [1/2, 1/2], [1/2, 1]⟩ : RandomGen ℤ) ∧
    ¬ Inv (⟨[1, 2, 3], [1/2, 1/2], [1/2, 1]⟩ : RandomGen ℤ) := by
  constructor
  · apply Reachable.of_set_random_nums
      (⟨[1, 2], [1/2, 1/2], [1/2, 1]⟩ : RandomGen ℤ) [1, 2, 3]
    · exact Reachable.of_init [1, 2] none _ (by
        norm_num [RandomGen.init, RandomGen.set_random_nums,
          RandomGen.set_probabilities, RandomGen.cumulative, fsum, isclose,
          List.range_succ])
    · norm_num [RandomGen.set_random_nums]
  · intro hinv
    obtain ⟨h1, -, -⟩ := hinv
    simp at h1

/-- C7 (amended): after any sequence of successful construction and
reconfiguration calls in which every `set_random_nums` call supplies a
list of the same length as the current values, the invariant
`len(values) = len(probabilities) = len(cumulativeProbabilities) ≥ 1`
holds; a successful `set_random_nums` call that changes the length breaks
it. -/
theorem C7_amended_invariant_after_reconfiguration (g : RandomGen V)
    (h : LenReachable g) : Inv g :=
  inv_of_lenReachable h

/-- Witness for C7 (amended) at the state constructed by `init [1, 2]`. -/
theorem C7_witness :
    LenReachable (⟨[1, 2], [1/2, 1/2], [1/2, 1]⟩ : RandomGen ℤ) ∧
    Inv (⟨[1, 2], [1/2, 1/2], [1/2, 1]⟩ : RandomGen ℤ) := by
  have h : LenReachable (⟨[1, 2], [1/2, 1/2], [1/2, 1]⟩ : RandomGen ℤ) :=
    LenReachable.of_init [1, 2] none _ (by
      norm_num [RandomGen.init, RandomGen.set_random_nums,
        RandomGen.set_probabilities, RandomGen.cumulative, fsum, isclose,
        List.range_succ])
  exact ⟨h, C7_amended_invariant_after_reconfiguration _ h⟩

/-- C8 (counterexample to the claim as stated): starting from the state
constructed by `init [1, 2, 3] none`, the successful reconfiguration
`set_random_nums [10]` yields a reachable state in which the draw
`u = 0.9 ∈ [0, 1)` makes `_find_index` return 2, an out-of-range index for
`values = [10]`, so `next_num` raises (`none` in the model). -/
theorem C8_counterexample :
    Reachable (⟨[10], [1/3, 1/3, 1/3], [1/3, 2/3, 1]⟩ : RandomGen ℤ) ∧
    (0 : ℚ) ≤ 9/10 ∧ (9/10 : ℚ) < 1 ∧
    (⟨[10], [1/3, 1/3, 1/3], [1/3, 2/3, 1]⟩ : RandomGen ℤ).next_num (9/10)
      = none := by
  refine ⟨?_, by norm_num, by norm_num, ?_⟩
  · apply Reachable.of_set_random_nums
      (⟨[1, 2, 3], [1/3, 1/3, 1/3], [1/3, 2/3, 1]⟩ : RandomGen ℤ) [10]
    · exact Reachable.of_init [1, 2, 3] none _ (by
        norm_num [RandomGen.init, RandomGen.set_random_nums,
          RandomGen.set_probabilities, RandomGen.cumulative, fsum, isclose,
          List.range_succ])
    · norm_num [RandomGen.set_random_nums]
  · have hfind : (⟨[10], [1/3, 1/3, 1/3], [1/3, 2/3, 1]⟩ :
        RandomGen ℤ)._find_index (9/10) = 2 := by
      rw [RandomGen._find_index]
      norm_num
      rw [find_loop.eq_def]
      norm_num
      rw [find_loop.eq_def]
      norm_num
    rw [RandomGen.next_num, hfind]
    rfl

/-- C8 (amended): in every state reachable from a successful construction
by successful reconfigurations in which every `set_random_nums` call
preserves the length of the values list, `next_num` never raises: for every
draw it returns an element of `values`. -/
theorem C8_amended_next_num_never_raises (g : RandomGen V)
    (h : LenReachable g) (u : ℚ) :
    ∃ v, g.next_num u = some v ∧ v ∈ g.random_nums := by
  obtain ⟨i1, i2, i3⟩ := inv_of_lenReachable h
  have hpos : 0 < g.cumulative_probabilities.length := by omega
  have hb := find_loop_bounds g.cumulative_probabilities u
    (g.cumulative_probabilities.length - 1) 0
    (g.cumulative_probabilities.length - 1) (by omega) (by omega)
  have hi : g._find_index u < g.random_nums.length := by
    unfold RandomGen._find_index
    omega
  refine ⟨g.random_nums.get ⟨g._find_index u, hi⟩, ?_, List.get_mem _ _ hi⟩
  rw [RandomGen.next_num, List.get?_eq_getElem?, List.getElem?_eq_getElem hi]
  rfl

/-- Witness for C8 (amended) at the state constructed by `init [1, 2]`
with the draw `u = 0.6`. -/
theorem C8_witness :
    LenReachable (⟨[1, 2], [1/2, 1/2], [1/2, 1]⟩ : RandomGen ℤ) ∧
    ∃ v, (⟨[1, 2], [1/2, 1/2], [1/2, 1]⟩ : RandomGen ℤ).next_num (3/5)
        = some v ∧
      v ∈ (⟨[1, 2], [1/2, 1/2], [1/2, 1]⟩ : RandomGen ℤ).random_nums := by
  have h : LenReachable (⟨[1, 2], [1/2, 1/2], [1/2, 1]⟩ : RandomGen ℤ) :=
    LenReachable.of_init [1, 2] none _ (by
      norm_num [RandomGen.init, RandomGen.set_random_nums,
        RandomGen.set_probabilities, RandomGen.cumulative, fsum, isclose,
        List.range_succ])
  exact ⟨h, C8_amended_next_num_never_raises _ h (3/5)⟩

end Claims

end WeightedSampler
